import Mathlib

/-!
Verification of the tiered retrieval-and-cache engine implemented in
src/web-search/src/WebSearch.ts (class WebSearch).

Shallow embedding conventions:

* JavaScript strings are modelled by Lean String; the string operations
  used by the source (startsWith, includes, repeat, join, slice) are
  re-implemented below on the character lists so that all definitions
  compute inside the kernel.
* The platform URL parser (new URL(u)) is an external library call.  A
  successful parse yields a record of the components the source reads
  (hostname, pathname, search, hash); a throwing parse is modelled by
  passing none.  Functions of the source that parse a URL therefore take
  the parse result as an explicit argument next to the raw string.
* JS Map (insertion ordered, set overwrites in place) is modelled by an
  association list; Date.now()/1000 timestamps are modelled by Int.
* JS numbers used by the confidence scorer and the density scorer are
  modelled by the exact rationals denoted by the numeric literals of the
  source.
-/

/-- Decides whether the pattern list is a prefix of the second list
(character by character). -/
def subAt : List Char → List Char → Bool
  | [], _ => true
  | _ :: _, [] => false
  | p :: ps, c :: cs => p == c && subAt ps cs

/-- Decides whether the pattern occurs as a contiguous substring,
scanning every suffix.  Models String.prototype.includes. -/
def hasSubstr (pat : List Char) : List Char → Bool
  | [] => subAt pat []
  | c :: rest => subAt pat (c :: rest) || hasSubstr pat rest

/-- Models the JavaScript expression s.includes(pat). -/
def jsIncludes (s pat : String) : Bool := hasSubstr pat.data s.data

/-- Models the JavaScript expression s.startsWith(pat). -/
def jsStartsWith (s pat : String) : Bool := subAt pat.data s.data

/-- Result of a successful new URL(u) parse, restricted to the
components the source reads. -/
structure URLObj where
  hostname : String
  pathname : String
  search : String
  hash : String
deriving DecidableEq, Repr

/-- Source, scrapeWebsite line 520:
url.startsWith(http) ? url : https:// + url. -/
def normalizeUrl (url : String) : String :=
  if jsStartsWith url "http" then url else "https://" ++ url

/-- Modelled from the spec: an address has a scheme when it begins with a
nonempty run of ASCII letters followed by a colon.  The claim C4 speaks
of the address "having a scheme"; the source never computes this. -/
def hasScheme (url : String) : Bool :=
  let letters := url.data.takeWhile Char.isAlpha
  decide (letters ≠ []) &&
    match url.data.drop letters.length with
    | ':' :: _ => true
    | _ => false

/-- Formalisation of claim C4 as stated: prefix https:// exactly when no
scheme is present, leave an address with a scheme unchanged. -/
def normalizeUrlClaimC4 (url : String) : String :=
  if hasScheme url then url else "https://" ++ url

/-- Source, getCacheKey (lines 96-112).  The parse result of new URL(url)
is passed explicitly; the catch branch is the none case. -/
def getCacheKey (url : String) (parsed : Option URLObj) : String :=
  match parsed with
  | none => url
  | some u => if jsIncludes u.pathname "/api/" then url else u.hostname ++ u.pathname

/-- Source, getCacheTTL (lines 119-145).  The parse result of new URL(url)
is passed explicitly; the catch branch and the fallthrough both return
3600. -/
def getCacheTTL (url : String) (parsed : Option URLObj) : Int :=
  match parsed with
  | none => 3600
  | some u =>
    if jsIncludes u.pathname "/feed" || jsIncludes u.pathname "/timeline" then 300
    else if jsIncludes u.hostname "github.com" then 1800
    else if jsIncludes u.hostname "news" || jsIncludes u.hostname "reddit" then 600
    else 3600

/-- Formalisation of the TTL policy exactly as claim C5 words it: paths
containing feed or timeline (no slash required), host equal to the
profile-hosting domain github.com, host mentioning news or the
discussion aggregator reddit. -/
def getCacheTTLClaimC5 (u : URLObj) : Int :=
  if jsIncludes u.pathname "feed" || jsIncludes u.pathname "timeline" then 300
  else if u.hostname = "github.com" then 1800
  else if jsIncludes u.hostname "news" || jsIncludes u.hostname "reddit" then 600
  else 3600

/-- TTL policy as amended: substring checks with the slash, substring
host checks, mirroring the priority order of the source. -/
def getCacheTTLAmended (u : URLObj) : Int :=
  if jsIncludes u.pathname "/feed" || jsIncludes u.pathname "/timeline" then 300
  else if jsIncludes u.hostname "github.com" then 1800
  else if jsIncludes u.hostname "news" || jsIncludes u.hostname "reddit" then 600
  else 3600

/-- Claim C4 fails on the code: ftp://example.com has a scheme, yet
normalization does not leave it unchanged (the code only tests for the
literal prefix http). -/
theorem normalize_scheme_counterexample :
    hasScheme "ftp://example.com" = true ∧
    normalizeUrl "ftp://example.com" ≠ "ftp://example.com" ∧
    normalizeUrl "ftp://example.com" ≠ normalizeUrlClaimC4 "ftp://example.com" := by
  refine ⟨by decide, by decide, by decide⟩

/-- Claim C4 as amended: normalization prefixes https:// exactly when the
address does not start with the literal http, leaves an address starting
with http unchanged, and is idempotent. -/
theorem normalize_amended :
    ∀ url : String,
      (normalizeUrl url = url ↔ jsStartsWith url "http" = true) ∧
      (normalizeUrl url = "https://" ++ url ↔ jsStartsWith url "http" = false) ∧
      normalizeUrl (normalizeUrl url) = normalizeUrl url := by
  intro url
  have hlen : "https://" ++ url ≠ url := by
    intro h
    have h2 : ("https://" ++ url).length = url.length := congrArg String.length h
    rw [String.length_append] at h2
    have h8 : ("https://").length = 8 := rfl
    rw [h8] at h2
    omega
  have hstart : jsStartsWith ("https://" ++ url) "http" = true := by
    cases url with
    | mk data => rfl
  by_cases hs : jsStartsWith url "http" = true
  · have h1 : normalizeUrl url = url := by rw [normalizeUrl, if_pos hs]
    refine ⟨⟨fun _ => hs, fun _ => h1⟩, ⟨fun h => ?_, fun h => ?_⟩, by rw [h1, h1]⟩
    · exact absurd (h1 ▸ h).symm hlen
    · rw [hs] at h
      exact absurd h (by simp)
  · have hs' : jsStartsWith url "http" = false := by
      cases h : jsStartsWith url "http"
      · rfl
      · exact absurd h hs
    have h1 : normalizeUrl url = "https://" ++ url := by rw [normalizeUrl, if_neg hs]
    refine ⟨⟨fun h => absurd (h1 ▸ h) hlen, fun h => ?_⟩, ⟨fun _ => hs', fun _ => h1⟩, ?_⟩
    · rw [hs'] at h
      exact absurd h (by simp)
    · rw [h1, normalizeUrl, if_pos hstart]

/-- Claim C5 fails on the code: for host example.com and path /newsfeed
the path contains feed, so the claim assigns TTL 300, but the code tests
for the substring /feed and falls through to the 3600 default.  A second
divergence: for host gist.github.com (which contains but is not equal to
github.com) the claim assigns the default 3600, but the code returns
1800. -/
theorem cache_ttl_counterexample :
    (getCacheTTL "https://example.com/newsfeed"
        (some { hostname := "example.com", pathname := "/newsfeed",
                search := "", hash := "" }) = 3600 ∧
      getCacheTTLClaimC5
        { hostname := "example.com", pathname := "/newsfeed",
          search := "", hash := "" } = 300) ∧
    (getCacheTTL "https://gist.github.com/x"
        (some { hostname := "gist.github.com", pathname := "/x",
                search := "", hash := "" }) = 1800 ∧
      getCacheTTLClaimC5
        { hostname := "gist.github.com", pathname := "/x",
          search := "", hash := "" } = 3600) := by
  refine ⟨⟨by decide, by decide⟩, by decide, by decide⟩

/-- Claim C5 as amended: the TTL priority order uses substring tests,
with /feed and /timeline (leading slash) on the path, and substring
matches of github.com, news and reddit on the host; a failed URL parse
gives the 3600 default. -/
theorem cache_ttl_policy :
    ∀ (url : String) (u : URLObj),
      getCacheTTL url (some u) = getCacheTTLAmended u ∧
      getCacheTTL url none = 3600 := by
  intro url u
  exact ⟨rfl, rfl⟩

/-- Claim C3: two addresses parsing to the same hostname and path give
equal cache keys unless the path contains /api/, in which case each key
is the full address, so distinct addresses give distinct keys. -/
theorem cache_key_collapse :
    ∀ (u1 u2 : String) (p1 p2 : URLObj),
      p1.hostname = p2.hostname → p1.pathname = p2.pathname →
      (jsIncludes p1.pathname "/api/" = false →
        getCacheKey u1 (some p1) = getCacheKey u2 (some p2)) ∧
      (jsIncludes p1.pathname "/api/" = true →
        getCacheKey u1 (some p1) = u1 ∧ getCacheKey u2 (some p2) = u2 ∧
        (u1 ≠ u2 → getCacheKey u1 (some p1) ≠ getCacheKey u2 (some p2))) := by
  intro u1 u2 p1 p2 hh hp
  constructor
  · intro hfalse
    have hfalse2 : jsIncludes p2.pathname "/api/" = false := hp ▸ hfalse
    simp only [getCacheKey, hfalse, hfalse2, Bool.false_eq_true, if_false]
    rw [hh, hp]
  · intro htrue
    have htrue2 : jsIncludes p2.pathname "/api/" = true := hp ▸ htrue
    have e1 : getCacheKey u1 (some p1) = u1 := by simp [getCacheKey, htrue]
    have e2 : getCacheKey u2 (some p2) = u2 := by simp [getCacheKey, htrue2]
    exact ⟨e1, e2, fun hne => by rw [e1, e2]; exact hne⟩

/-- Witness for cache_key_collapse: two concrete addresses differing only
in the query string collapse to one key. -/
theorem cache_key_collapse_witness :
    jsIncludes "/x" "/api/" = false ∧
    getCacheKey "https://a.com/x?a=1"
        (some { hostname := "a.com", pathname := "/x", search := "?a=1", hash := "" }) =
      getCacheKey "https://a.com/x?b=2"
        (some { hostname := "a.com", pathname := "/x", search := "?b=2", hash := "" }) :=
  ⟨by decide,
    (cache_key_collapse "https://a.com/x?a=1" "https://a.com/x?b=2"
      { hostname := "a.com", pathname := "/x", search := "?a=1", hash := "" }
      { hostname := "a.com", pathname := "/x", search := "?b=2", hash := "" }
      rfl rfl).1 (by decide)⟩

/-- Entry of the in-memory cache Map of the source: content, timestamp
(seconds) and per-entry ttl (seconds). -/
structure CacheEntry where
  content : String
  timestamp : Int
  ttl : Int
deriving DecidableEq, Repr

/-- A JS Map from string keys to cache entries, as an insertion-ordered
association list with no duplicate keys in reachable states. -/
abbrev CacheMap := List (String × CacheEntry)

/-- Models Map.prototype.get. -/
def mapGet : CacheMap → String → Option CacheEntry
  | [], _ => none
  | (k, v) :: rest, key => if k = key then some v else mapGet rest key

/-- Models Map.prototype.set: overwrite in place when the key is present,
append otherwise. -/
def mapSet : CacheMap → String → CacheEntry → CacheMap
  | [], key, v => [(key, v)]
  | (k, v0) :: rest, key, v =>
    if k = key then (key, v) :: rest else (k, v0) :: mapSet rest key v

/-- Models Map.prototype.delete (ignoring the returned Boolean). -/
def mapDelete (m : CacheMap) (key : String) : CacheMap :=
  m.filter (fun p => decide (p.1 ≠ key))

/-- Source field cacheSizeLimit = 50. -/
def cacheSizeLimit : Nat := 50

/-- Ordering used by the eviction sort of updateCache:
(a, b) => a[1].timestamp - b[1].timestamp, ascending in storedAt. -/
def tsLe (a b : String × CacheEntry) : Prop := a.2.timestamp ≤ b.2.timestamp

instance : DecidableRel tsLe :=
  fun a b => inferInstanceAs (Decidable (a.2.timestamp ≤ b.2.timestamp))

instance : IsTotal (String × CacheEntry) tsLe :=
  ⟨fun a b => Int.le_total a.2.timestamp b.2.timestamp⟩

instance : IsTrans (String × CacheEntry) tsLe :=
  ⟨fun _ _ _ h1 h2 => le_trans h1 h2⟩

/-- Models Array.from(this.cache.entries()).sort((a, b) =>
a[1].timestamp - b[1].timestamp).  JS sort is stable, as is insertion
sort, so the two agree. -/
def sortByTimestamp (m : CacheMap) : CacheMap := List.insertionSort tsLe m

/-- Source: const toRemove = Math.ceil(this.cacheSizeLimit * 0.1); with
cacheSizeLimit = 50 the IEEE product 50 * 0.1 rounds to exactly 5.0, so
toRemove = 5. -/
def evictCount : Nat := 5

/-- The batch of entries the eviction loop deletes: the first evictCount
entries of the timestamp-sorted entry list. -/
def evictedEntries (m : CacheMap) : CacheMap := (sortByTimestamp m).take evictCount

/-- The entries of the timestamp-sorted list that the eviction loop keeps. -/
def keptEntries (m : CacheMap) : CacheMap := (sortByTimestamp m).drop evictCount

/-- Models the eviction loop of updateCache (lines 612-621): delete the
keys of the first evictCount timestamp-sorted entries, one by one. -/
def evictOldest (m : CacheMap) : CacheMap :=
  (((sortByTimestamp m).take evictCount).map Prod.fst).foldl mapDelete m

/-- Source, updateCache (lines 606-624): evict when size has reached the
limit, then insert or overwrite the entry with storedAt = now. -/
def updateCache (m : CacheMap) (key content : String) (ttl : Int) (now : Int) : CacheMap :=
  let m1 := if cacheSizeLimit ≤ m.length then evictOldest m else m
  mapSet m1 key { content := content, timestamp := now, ttl := ttl }

/-- One put operation of claim C1, with its clock reading. -/
structure PutOp where
  key : String
  content : String
  ttl : Int
  now : Int

/-- A sequence of put operations run left to right against a starting
cache state. -/
def runPuts (ops : List PutOp) (init : CacheMap) : CacheMap :=
  ops.foldl (fun m op => updateCache m op.key op.content op.ttl op.now) init

/-- Well-formedness of the association-list model of a JS Map: keys are
pairwise distinct. -/
abbrev KeysNodup (m : CacheMap) : Prop := (m.map Prod.fst).Nodup

/-- Models the cache read of scrapeWebsite (lines 524-529): a raw Map get
followed by the lazy expiry test now - timestamp < ttl.  The second
component records that the read leaves the Map untouched: an expired
entry stays stored. -/
def cacheRead (m : CacheMap) (key : String) (now : Int) : Option String × CacheMap :=
  match mapGet m key with
  | some cached =>
    if now - cached.timestamp < cached.ttl then (some cached.content, m) else (none, m)
  | none => (none, m)

/-- Separator line of every response: repeat of the equals sign 30 times. -/
def sepLine : String := String.mk (List.replicate 30 '=')

/-- Models the catch block of scrapeWebsite (lines 586-597): a raw Map
get (no expiry test) plus an ETIMEDOUT substring test on the failure
message decide between the stale-cache fallback and the error text. -/
def handleScrapeError (m : CacheMap) (cacheKey normalizedUrl errorMessage : String) : String :=
  match mapGet m cacheKey with
  | some cached =>
    if jsIncludes errorMessage "ETIMEDOUT" then
      "Cached content from " ++ normalizedUrl ++ " (network timeout):\n" ++
        sepLine ++ "\n" ++ cached.content
    else
      "Error scraping " ++ normalizedUrl ++ ": " ++ errorMessage
  | none => "Error scraping " ++ normalizedUrl ++ ": " ++ errorMessage

/-- A set on an association-list Map stores exactly the written entry
under the written key. -/
theorem mapGet_mapSet_self (m : CacheMap) (k : String) (v : CacheEntry) :
    mapGet (mapSet m k v) k = some v := by
  induction m with
  | nil => simp [mapSet, mapGet]
  | cons p rest ih =>
    obtain ⟨k0, v0⟩ := p
    by_cases h : k0 = k
    · simp [mapSet, h, mapGet]
    · simp [mapSet, h, mapGet, ih]

/-- A set grows an association-list Map by at most one entry. -/
theorem length_mapSet_le (m : CacheMap) (k : String) (v : CacheEntry) :
    (mapSet m k v).length ≤ m.length + 1 := by
  induction m with
  | nil => simp [mapSet]
  | cons p rest ih =>
    obtain ⟨k0, v0⟩ := p
    by_cases h : k0 = k
    · simp [mapSet, h]
    · simp only [mapSet, if_neg h, List.length_cons]
      omega

/-- Every key present after a set was present before or is the written
key. -/
theorem mem_keys_mapSet {m : CacheMap} {k x : String} {v : CacheEntry}
    (h : x ∈ (mapSet m k v).map Prod.fst) : x ∈ m.map Prod.fst ∨ x = k := by
  induction m with
  | nil =>
    simp only [mapSet, List.map_cons, List.map_nil, List.mem_cons,
      List.not_mem_nil, or_false] at h
    exact Or.inr h
  | cons p rest ih =>
    obtain ⟨k0, v0⟩ := p
    simp only [mapSet] at h
    by_cases hk : k0 = k
    · rw [if_pos hk, List.map_cons, List.mem_cons] at h
      rcases h with h | h
      · exact Or.inr h
      · exact Or.inl (by rw [List.map_cons, List.mem_cons]; exact Or.inr h)
    · rw [if_neg hk, List.map_cons, List.mem_cons] at h
      rcases h with h | h
      · exact Or.inl (by rw [List.map_cons, List.mem_cons]; exact Or.inl h)
      · rcases ih h with h1 | h1
        · exact Or.inl (by rw [List.map_cons, List.mem_cons]; exact Or.inr h1)
        · exact Or.inr h1

/-- A set preserves distinctness of the keys. -/
theorem keysNodup_mapSet {m : CacheMap} (h : KeysNodup m) (k : String) (v : CacheEntry) :
    KeysNodup (mapSet m k v) := by
  induction m with
  | nil => simp [mapSet, KeysNodup]
  | cons p rest ih =>
    obtain ⟨k0, v0⟩ := p
    rw [KeysNodup, List.map_cons, List.nodup_cons] at h
    obtain ⟨hnotin, hrest⟩ := h
    by_cases hk : k0 = k
    · rw [KeysNodup]
      simp only [mapSet, if_pos hk, List.map_cons, List.nodup_cons]
      exact ⟨hk ▸ hnotin, hrest⟩
    · rw [KeysNodup]
      simp only [mapSet, if_neg hk, List.map_cons, List.nodup_cons]
      refine ⟨fun hmem => ?_, ih hrest⟩
      rcases mem_keys_mapSet hmem with h1 | h1
      · exact hnotin h1
      · exact hk h1

/-- Folding Map deletes over a key list equals a single filter that
drops every entry whose key is listed. -/
theorem foldl_mapDelete (ks : List String) (m : CacheMap) :
    ks.foldl mapDelete m = m.filter (fun p => decide (p.1 ∉ ks)) := by
  induction ks generalizing m with
  | nil => simp
  | cons k ks ih =>
    rw [List.foldl_cons, ih, mapDelete, List.filter_filter]
    apply List.filter_congr
    intro p _
    by_cases h1 : p.1 = k
    · simp [h1]
    · by_cases h2 : p.1 ∈ ks <;> simp [h1, h2]

/-- The eviction loop equals one filter over the keys of the evicted
batch. -/
theorem evictOldest_eq_filter (m : CacheMap) :
    evictOldest m =
      m.filter (fun p => decide (p.1 ∉ (evictedEntries m).map Prod.fst)) := by
  rw [evictOldest, foldl_mapDelete]
  rfl

/-- When eviction fires on a well-formed cache of size at least the
limit, the evicted batch has exactly evictCount entries, each evicted
entry has a storedAt no later than every kept entry, and exactly
evictCount entries disappear. -/
theorem evict_spec (m : CacheMap) (hnd : KeysNodup m) (h50 : cacheSizeLimit ≤ m.length) :
    (evictedEntries m).length = evictCount ∧
    (∀ p ∈ evictedEntries m, ∀ q ∈ keptEntries m, p.2.timestamp ≤ q.2.timestamp) ∧
    (evictOldest m).length = m.length - evictCount := by
  have hperm : (sortByTimestamp m).Perm m := List.perm_insertionSort tsLe m
  have hlen : (sortByTimestamp m).length = m.length := hperm.length_eq
  have hsorted : List.Sorted tsLe (sortByTimestamp m) := List.sorted_insertionSort tsLe m
  have hcount : evictCount ≤ m.length := by
    rw [cacheSizeLimit] at h50
    rw [evictCount]
    omega
  have hsplit : evictedEntries m ++ keptEntries m = sortByTimestamp m :=
    List.take_append_drop evictCount (sortByTimestamp m)
  have hpair : ∀ p ∈ evictedEntries m, ∀ q ∈ keptEntries m, tsLe p q := by
    have := hsplit ▸ (hsorted : List.Pairwise tsLe (sortByTimestamp m))
    exact (List.pairwise_append.mp this).2.2
  refine ⟨?_, hpair, ?_⟩
  · rw [evictedEntries, List.length_take, hlen]
    omega
  · rw [evictOldest_eq_filter]
    have hfilter :
        (m.filter fun p => decide (p.1 ∉ (evictedEntries m).map Prod.fst)).length =
          ((sortByTimestamp m).filter
            fun p => decide (p.1 ∉ (evictedEntries m).map Prod.fst)).length :=
      ((hperm.filter _).length_eq).symm
    rw [hfilter, ← hsplit, List.filter_append]
    have hnods : ((sortByTimestamp m).map Prod.fst).Nodup :=
      ((hperm.map Prod.fst).nodup_iff).mpr hnd
    have hdisj : List.Disjoint ((evictedEntries m).map Prod.fst)
        ((keptEntries m).map Prod.fst) := by
      have hmapsplit :
          (evictedEntries m).map Prod.fst ++ (keptEntries m).map Prod.fst =
            (sortByTimestamp m).map Prod.fst := by
        rw [← List.map_append, hsplit]
      rw [← hmapsplit] at hnods
      exact (List.nodup_append.mp hnods).2.2
    have h1 : (evictedEntries m).filter
        (fun p => decide (p.1 ∉ (evictedEntries m).map Prod.fst)) = [] := by
      rw [List.filter_eq_nil_iff]
      intro a ha
      simp only [decide_eq_true_eq, not_not, Decidable.not_not]
      exact List.mem_map_of_mem Prod.fst ha
    have h2 : (keptEntries m).filter
        (fun p => decide (p.1 ∉ (evictedEntries m).map Prod.fst)) = keptEntries m := by
      rw [List.filter_eq_self]
      intro a ha
      simp only [decide_eq_true_eq]
      intro hmem
      exact hdisj hmem (List.mem_map_of_mem Prod.fst ha)
    rw [h1, h2, List.nil_append, keptEntries, List.length_drop, hlen]

/-- One put preserves key distinctness and the size bound. -/
theorem updateCache_preserves (m : CacheMap) (k c : String) (t n : Int)
    (hnd : KeysNodup m) (hle : m.length ≤ cacheSizeLimit) :
    KeysNodup (updateCache m k c t n) ∧
      (updateCache m k c t n).length ≤ cacheSizeLimit := by
  by_cases h : cacheSizeLimit ≤ m.length
  · have hev := (evict_spec m hnd h).2.2
    have hnd1 : KeysNodup (evictOldest m) := by
      rw [evictOldest_eq_filter]
      exact ((List.filter_sublist m).map Prod.fst).nodup hnd
    have h1 : updateCache m k c t n =
        mapSet (evictOldest m) k { content := c, timestamp := n, ttl := t } := by
      rw [updateCache]
      simp only [if_pos h]
    rw [h1]
    refine ⟨keysNodup_mapSet hnd1 _ _, ?_⟩
    have h2 := length_mapSet_le (evictOldest m) k { content := c, timestamp := n, ttl := t }
    rw [hev] at h2
    have hec : evictCount = 5 := rfl
    rw [cacheSizeLimit] at *
    omega
  · have h1 : updateCache m k c t n =
        mapSet m k { content := c, timestamp := n, ttl := t } := by
      rw [updateCache]
      simp only [if_neg h]
    rw [h1]
    refine ⟨keysNodup_mapSet hnd _ _, ?_⟩
    have h2 := length_mapSet_le m k { content := c, timestamp := n, ttl := t }
    rw [cacheSizeLimit] at *
    omega

/-- Any run of puts keeps keys distinct and size within the limit. -/
theorem runPuts_inv (ops : List PutOp) :
    ∀ m, KeysNodup m → m.length ≤ cacheSizeLimit →
      KeysNodup (runPuts ops m) ∧ (runPuts ops m).length ≤ cacheSizeLimit := by
  induction ops with
  | nil =>
    intro m h1 h2
    exact ⟨h1, h2⟩
  | cons op ops ih =>
    intro m h1 h2
    have h3 := updateCache_preserves m op.key op.content op.ttl op.now h1 h2
    exact ih _ h3.1 h3.2

/-- Claim C1: starting from the empty cache, any sequence of puts keeps
the entry count at or below the capacity of 50; when a put begins with
size at least 50 on a well-formed cache, the evictCount = 5 entries with
the smallest storedAt values (the first five of the stable
timestamp-ascending sort) are removed before the insert, exactly five
entries disappear, and the freshly written entry is present afterwards. -/
theorem cache_capacity_invariant :
    (∀ ops : List PutOp, (runPuts ops []).length ≤ cacheSizeLimit) ∧
    (∀ (m : CacheMap) (k c : String) (t n : Int), KeysNodup m →
      cacheSizeLimit ≤ m.length →
      (evictedEntries m).length = evictCount ∧
      (∀ p ∈ evictedEntries m, ∀ q ∈ keptEntries m, p.2.timestamp ≤ q.2.timestamp) ∧
      (evictOldest m).length = m.length - evictCount ∧
      updateCache m k c t n =
        mapSet (evictOldest m) k { content := c, timestamp := n, ttl := t } ∧
      mapGet (updateCache m k c t n) k =
        some { content := c, timestamp := n, ttl := t }) := by
  constructor
  · intro ops
    exact (runPuts_inv ops [] (by simp [KeysNodup]) (by simp [cacheSizeLimit])).2
  · intro m k c t n hnd h50
    have he := evict_spec m hnd h50
    have heq : updateCache m k c t n =
        mapSet (evictOldest m) k { content := c, timestamp := n, ttl := t } := by
      rw [updateCache]
      simp only [if_pos h50]
    refine ⟨he.1, he.2.1, he.2.2, heq, ?_⟩
    rw [heq]
    exact mapGet_mapSet_self _ _ _

/-- A concrete full cache of 50 distinct single-character keys with
increasing timestamps. -/
def witnessCache : CacheMap :=
  (List.range 50).map fun i =>
    (Char.toString (Char.ofNat (65 + i)),
      { content := "", timestamp := (i : Int), ttl := 3600 })

/-- Witness for cache_capacity_invariant: on a concrete full cache the
put inserts its entry after eviction. -/
theorem cache_capacity_witness :
    KeysNodup witnessCache ∧ cacheSizeLimit ≤ witnessCache.length ∧
    mapGet (updateCache witnessCache "z" "body" 300 1000) "z" =
      some { content := "body", timestamp := 1000, ttl := 300 } :=
  ⟨by decide, by decide,
    (cache_capacity_invariant.2 witnessCache "z" "body" 300 1000
      (by decide) (by decide)).2.2.2.2⟩

/-- Claim C2: for a stored entry, a lookup at time t is a hit exactly
when t - storedAt < ttl; in particular a read at storedAt + ttl - 1 hits
and a read at storedAt + ttl or later misses; the read never changes the
stored Map, so an expired entry stays in storage. -/
theorem ttl_boundary (m : CacheMap) (key : String) (e : CacheEntry)
    (h : mapGet m key = some e) :
    (∀ t : Int, (cacheRead m key t).1 = some e.content ↔ t - e.timestamp < e.ttl) ∧
    (cacheRead m key (e.timestamp + e.ttl - 1)).1 = some e.content ∧
    (∀ t : Int, e.timestamp + e.ttl ≤ t → (cacheRead m key t).1 = none) ∧
    (∀ t : Int, (cacheRead m key t).2 = m) := by
  have hread : ∀ t : Int, cacheRead m key t =
      if t - e.timestamp < e.ttl then (some e.content, m) else (none, m) := by
    intro t
    rw [cacheRead, h]
  refine ⟨fun t => ?_, ?_, fun t ht => ?_, fun t => ?_⟩
  · rw [hread]
    constructor
    · intro hh
      by_contra hc
      rw [if_neg hc] at hh
      simp at hh
    · intro hh
      rw [if_pos hh]
  · rw [hread, if_pos (by omega)]
  · rw [hread, if_neg (by omega)]
  · rw [hread]
    by_cases hc : t - e.timestamp < e.ttl
    · rw [if_pos hc]
    · rw [if_neg hc]

/-- Witness for ttl_boundary on a concrete entry stored at 100 with ttl
10: hit at 109, miss at 110, entry still stored. -/
theorem ttl_boundary_witness :
    mapGet [("k", { content := "v", timestamp := 100, ttl := 10 : CacheEntry })] "k" =
      some { content := "v", timestamp := 100, ttl := 10 } ∧
    (cacheRead [("k", { content := "v", timestamp := 100, ttl := 10 : CacheEntry })]
        "k" 109).1 = some "v" ∧
    (cacheRead [("k", { content := "v", timestamp := 100, ttl := 10 : CacheEntry })]
        "k" 110).1 = none :=
  ⟨by decide,
    (ttl_boundary [("k", { content := "v", timestamp := 100, ttl := 10 })] "k"
      { content := "v", timestamp := 100, ttl := 10 } (by decide)).2.1,
    (ttl_boundary [("k", { content := "v", timestamp := 100, ttl := 10 })] "k"
      { content := "v", timestamp := 100, ttl := 10 } (by decide)).2.2.1 110 (by decide)⟩

/-- Claim C6: on a retrieval failure, a message containing ETIMEDOUT
plus any stored entry under the key (expiry is never consulted) yields
the stale-cache timeout response; otherwise the textual error response;
the handler always returns one of these two strings, never a thrown
failure. -/
theorem error_fallback (m : CacheMap) (cacheKey normalizedUrl errorMessage : String) :
    (∀ e : CacheEntry, mapGet m cacheKey = some e →
      jsIncludes errorMessage "ETIMEDOUT" = true →
      handleScrapeError m cacheKey normalizedUrl errorMessage =
        "Cached content from " ++ normalizedUrl ++ " (network timeout):\n" ++
          sepLine ++ "\n" ++ e.content) ∧
    (mapGet m cacheKey = none ∨ jsIncludes errorMessage "ETIMEDOUT" = false →
      handleScrapeError m cacheKey normalizedUrl errorMessage =
        "Error scraping " ++ normalizedUrl ++ ": " ++ errorMessage) ∧
    ((∃ s : String, handleScrapeError m cacheKey normalizedUrl errorMessage =
        "Cached content from " ++ normalizedUrl ++ " (network timeout):\n" ++
          sepLine ++ "\n" ++ s) ∨
      handleScrapeError m cacheKey normalizedUrl errorMessage =
        "Error scraping " ++ normalizedUrl ++ ": " ++ errorMessage) := by
  refine ⟨fun e he ht => ?_, fun h => ?_, ?_⟩
  · simp [handleScrapeError, he, ht]
  · rcases h with h | h
    · simp [handleScrapeError, h]
    · cases hg : mapGet m cacheKey with
      | none => simp [handleScrapeError, hg]
      | some e => simp [handleScrapeError, hg, h]
  · cases hg : mapGet m cacheKey with
    | none =>
      right
      simp [handleScrapeError, hg]
    | some e =>
      by_cases ht : jsIncludes errorMessage "ETIMEDOUT" = true
      · left
        exact ⟨e.content, by simp [handleScrapeError, hg, ht]⟩
      · right
        have ht2 : jsIncludes errorMessage "ETIMEDOUT" = false := by
          cases hx : jsIncludes errorMessage "ETIMEDOUT"
          · rfl
          · exact absurd hx ht
        simp [handleScrapeError, hg, ht2]

/-- Witness for error_fallback: a timeout message and a stored entry
whose ttl (10s from time 0) is long expired still produce the stale
response. -/
theorem error_fallback_witness :
    mapGet [("k", { content := "old", timestamp := 0, ttl := 10 : CacheEntry })] "k" =
      some { content := "old", timestamp := 0, ttl := 10 } ∧
    jsIncludes "connect ETIMEDOUT 93.184.216.34:443" "ETIMEDOUT" = true ∧
    handleScrapeError [("k", { content := "old", timestamp := 0, ttl := 10 : CacheEntry })]
        "k" "https://example.com" "connect ETIMEDOUT 93.184.216.34:443" =
      "Cached content from https://example.com (network timeout):\n" ++
        sepLine ++ "\n" ++ "old" :=
  ⟨by decide, by decide,
    (error_fallback [("k", { content := "old", timestamp := 0, ttl := 10 })] "k"
        "https://example.com" "connect ETIMEDOUT 93.184.216.34:443").1
      { content := "old", timestamp := 0, ttl := 10 } (by decide) (by decide)⟩

/-- Claim C9: when URL parsing fails, the cache key is the raw input and
the TTL is the 3600 default; both functions are total and the TTL always
lands in the fixed value set. -/
theorem parse_failure_totality :
    ∀ (url : String) (parsed : Option URLObj),
      getCacheKey url none = url ∧
      getCacheTTL url none = 3600 ∧
      getCacheTTL url parsed ∈ ([300, 1800, 600, 3600] : List Int) := by
  intro url parsed
  refine ⟨rfl, rfl, ?_⟩
  cases parsed with
  | none => simp [getCacheTTL]
  | some u =>
    rw [getCacheTTL]
    split_ifs <;> simp

/-- Metadata record collected by enhancedBasicScrape.  A JS value that is
undefined or the empty string is falsy in every use the source makes of
these fields, so absence is modelled by the empty string. -/
structure MetaData where
  title : String
  description : String
  image : String
  author : String
  publishedTime : String
deriving DecidableEq, Repr

/-- One pinned repository of the GitHub-specific extraction. -/
structure GithubRepo where
  name : String
  description : String
deriving DecidableEq, Repr

/-- GitHub-specific extraction block of enhancedBasicScrape. -/
structure GithubData where
  username : String
  name : String
  bio : String
  location : String
  website : String
  stats : List String
  repositories : List GithubRepo
deriving DecidableEq, Repr

/-- One collected heading. -/
structure Heading where
  level : String
  text : String
deriving DecidableEq, Repr

/-- The content object assembled by enhancedBasicScrape (lines 327-374)
and consumed by calculateConfidence and formatContent. -/
structure ExtractedContent where
  jsonLd : List String
  metaData : MetaData
  mainContent : List String
  githubData : Option GithubData
  headings : List Heading
deriving DecidableEq, Repr

/-- Source, calculateConfidence (lines 152-174), with the JS doubles
0.3, 0.2, 0.1 modelled as exact rationals and string truthiness as
being nonempty. -/
def calculateConfidence (c : ExtractedContent) : ℚ :=
  let score0 : ℚ := 0
  let score1 := if 0 < c.jsonLd.length then score0 + 3/10 else score0
  let score2 := if c.metaData.title ≠ "" then score1 + 2/10 else score1
  let score3 := if c.metaData.description ≠ "" then score2 + 1/10 else score2
  let score4 :=
    if 0 < c.mainContent.length then
      let totalLength := (String.join c.mainContent).length
      if 500 < totalLength then score3 + 3/10
      else if 200 < totalLength then score3 + 2/10
      else if 50 < totalLength then score3 + 1/10
      else score3
    else score3
  let score5 :=
    match c.githubData with
    | some g => if g.username ≠ "" then score4 + 1/10 else score4
    | none => score4
  min score5 1

/-- The additive increment sum exactly as claim C8 words it: independent
increments, the length thresholds mutually exclusive with the highest
winning, no nonemptiness guard (a length above 50 forces nonemptiness). -/
def confidenceSpecSum (c : ExtractedContent) : ℚ :=
  (if 0 < c.jsonLd.length then 3/10 else 0) +
  (if c.metaData.title ≠ "" then 2/10 else 0) +
  (if c.metaData.description ≠ "" then 1/10 else 0) +
  (if 500 < (String.join c.mainContent).length then 3/10
   else if 200 < (String.join c.mainContent).length then 2/10
   else if 50 < (String.join c.mainContent).length then 1/10 else 0) +
  (match c.githubData with
   | some g => if g.username ≠ "" then 1/10 else 0
   | none => 0)

set_option maxHeartbeats 1200000 in
/-- Claim C8: the confidence score is the capped increment sum and lies
in the unit interval. -/
theorem confidence_bounds :
    ∀ c : ExtractedContent,
      calculateConfidence c = min (confidenceSpecSum c) 1 ∧
      0 ≤ calculateConfidence c ∧ calculateConfidence c ≤ 1 := by
  intro c
  obtain ⟨jsonLd, md, mainContent, githubData, hd⟩ := c
  have hkey : calculateConfidence ⟨jsonLd, md, mainContent, githubData, hd⟩ =
      min (confidenceSpecSum ⟨jsonLd, md, mainContent, githubData, hd⟩) 1 := by
    have hjoin : ¬ 0 < mainContent.length → (String.join mainContent).length = 0 := by
      intro hm
      have hnil : mainContent = [] := by
        cases mainContent with
        | nil => rfl
        | cons a b => exact absurd (Nat.succ_pos b.length) hm
      rw [hnil]
      rfl
    cases githubData with
    | none =>
      simp only [calculateConfidence, confidenceSpecSum]
      by_cases hm : 0 < mainContent.length
      · rw [if_pos hm]
        congr 1
        split_ifs <;> norm_num
      · rw [if_neg hm, hjoin hm]
        norm_num
        congr 1
        split_ifs <;> norm_num
    | some g =>
      simp only [calculateConfidence, confidenceSpecSum]
      by_cases hm : 0 < mainContent.length
      · rw [if_pos hm]
        congr 1
        split_ifs <;> norm_num
      · rw [if_neg hm, hjoin hm]
        norm_num
        congr 1
        split_ifs <;> norm_num
  refine ⟨hkey, ?_, ?_⟩
  · rw [hkey]
    have hsum : 0 ≤ confidenceSpecSum ⟨jsonLd, md, mainContent, githubData, hd⟩ := by
      cases githubData with
      | none =>
        simp only [confidenceSpecSum]
        split_ifs <;> norm_num
      | some g =>
        simp only [confidenceSpecSum]
        split_ifs <;> norm_num
    exact le_min hsum (by norm_num)
  · rw [hkey]
    exact min_le_right _ _

/-- Source, formatContent (lines 181-233).  The JSON.parse call on each
structured-data block, returning the interpolated @type when parsing
succeeds and the field is truthy, is the platform JSON parser; it is
passed as the oracle parseType.  String truthiness is nonemptiness. -/
def formatContent (parseType : String → Option String) (c : ExtractedContent) : String :=
  let parts : List String :=
    (if c.metaData.title ≠ "" then ["Title: " ++ c.metaData.title] else []) ++
    (if c.metaData.description ≠ "" then ["Description: " ++ c.metaData.description] else []) ++
    (match c.githubData with
     | some g =>
       ["\nGitHub Profile Data:"] ++
       (if g.username ≠ "" then ["Username: " ++ g.username] else []) ++
       (if g.bio ≠ "" then ["Bio: " ++ g.bio] else []) ++
       (if 0 < g.stats.length then ["Stats: " ++ String.intercalate ", " g.stats] else [])
     | none => []) ++
    (if 0 < c.mainContent.length then "\nMain Content:" :: c.mainContent.take 5 else []) ++
    (if 0 < c.jsonLd.length then
      "\nStructured Data Found:" ::
        c.jsonLd.filterMap (fun j => (parseType j).map (fun t => "- " ++ t))
     else [])
  let joined := String.intercalate "\n" parts
  if joined = "" then "No content found" else joined

/-- Candidate block of the density fallback: its own trimmed text plus
its anchor-descendant count, the only two DOM inputs the scoring reads. -/
structure Block where
  text : String
  anchors : Nat
deriving DecidableEq, Repr

/-- Count of sentence-ending punctuation, text.match of the dot, bang
and question-mark class. -/
def punctCount (s : String) : Nat :=
  (s.data.filter fun ch => ch == '.' || ch == '!' || ch == '?').length

/-- Splitter underlying jsSplitWs: emit the accumulated token at each
whitespace run, as String.prototype.split with a one-or-more whitespace
pattern does (leading or trailing runs contribute empty pieces). -/
def splitWsAux (l : List Char) (acc : List Char) : List (List Char) :=
  match l with
  | [] => [acc.reverse]
  | ch :: rest =>
    if ch.isWhitespace then
      acc.reverse :: splitWsAux (rest.dropWhile Char.isWhitespace) []
    else
      splitWsAux rest (ch :: acc)
termination_by l.length
decreasing_by
  all_goals simp_wf
  all_goals have h := (List.dropWhile_sublist (l := rest) Char.isWhitespace).length_le
  all_goals omega

/-- Models text.split on a whitespace-run pattern. -/
def jsSplitWs (s : String) : List String :=
  (splitWsAux s.data []).map fun chars => String.mk chars

/-- Source, the per-block score of the density fallback in
extractMainContent (lines 277-286), JS doubles as exact rationals. -/
def blockScore (b : Block) : Nat :=
  let linkDensity : ℚ := (b.anchors : ℚ) / ((b.text.length : ℚ) / 100)
  let punctuationDensity : ℚ := (punctCount b.text : ℚ) / ((b.text.length : ℚ) / 100)
  let wordCount := (jsSplitWs b.text).length
  (if 10 < wordCount then 1 else 0) +
    (if linkDensity < 3/10 then 1 else 0) +
    (if 1/2 < punctuationDensity then 1 else 0)

/-- A retained fallback block with its score. -/
structure ScoredBlock where
  text : String
  score : Nat
deriving DecidableEq, Repr

/-- The blocks array built by the density fallback loop: skip blocks with
text shorter than 50 characters, keep those scoring at least 2. -/
def densityBlocks (blocks : List Block) : List ScoredBlock :=
  blocks.filterMap fun b =>
    if b.text.length < 50 then none
    else
      let s := blockScore b
      if 2 ≤ s then some { text := b.text, score := s } else none

/-- Ordering of the fallback sort comparator: score descending, ties by
text length descending. -/
def blockLe (a b : ScoredBlock) : Prop :=
  b.score < a.score ∨ (b.score = a.score ∧ b.text.length ≤ a.text.length)

instance : DecidableRel blockLe := fun a b =>
  inferInstanceAs (Decidable (_ ∨ _))

/-- Source, the final selection of the density fallback (lines 294-298):
stable sort by the comparator, slice the first 10, project the text. -/
def extractMainContentFallback (blocks : List Block) : List String :=
  ((List.insertionSort blockLe (densityBlocks blocks)).take 10).map ScoredBlock.text

/-- Claim C10: the formatted output only ever uses the first 5
main-content blocks, while the density fallback can retain up to 10. -/
theorem format_truncates_main_content :
    (∀ (parseType : String → Option String) (c : ExtractedContent),
      formatContent parseType c =
        formatContent parseType { c with mainContent := c.mainContent.take 5 }) ∧
    (∀ blocks : List Block, (extractMainContentFallback blocks).length ≤ 10) := by
  constructor
  · intro parseType c
    obtain ⟨jsonLd, md, mainContent, githubData, hd⟩ := c
    have h2 : (0 < (mainContent.take 5).length) = (0 < mainContent.length) := by
      apply propext
      rw [List.length_take]
      omega
    simp only [formatContent, List.take_take, h2]
    rfl
  · intro blocks
    rw [extractMainContentFallback, List.length_map, List.length_take]
    omega

/-- Source field strategies.basic: domains known good with basic
scraping. -/
def strategiesBasic : List String :=
  ["github.com", "wikipedia.org", "docs.python.org", "stackoverflow.com"]

/-- Source field strategies.dynamic: domains known to render content
with JavaScript. -/
def strategiesDynamic : List String :=
  ["instagram.com", "x.com", "twitter.com", "linkedin.com", "facebook.com"]

/-- Domains of the strategies.api registry. -/
def strategiesApiDomains : List String :=
  ["github.com", "reddit.com", "news.ycombinator.com"]

/-- Replaces the first occurrence of the pattern, as
String.prototype.replace with a string pattern does. -/
def replaceFirstAux (pat rep : List Char) : List Char → List Char
  | [] => []
  | ch :: rest =>
    if subAt pat (ch :: rest) then rep ++ (ch :: rest).drop pat.length
    else ch :: replaceFirstAux pat rep rest

/-- Models the JavaScript expression s.replace(pat, rep) for string
patterns (first occurrence only). -/
def jsReplaceFirst (s pat rep : String) : String :=
  String.mk (replaceFirstAux pat.data rep.data s.data)

/-- Source, scrapeWebsite line 533: the domain is the parsed hostname
with the first www. occurrence removed. -/
def urlDomain (u : URLObj) : String := jsReplaceFirst u.hostname "www." ""

/-- The caveat appended for dynamic sites (line 572). -/
def dynamicWarning : String :=
  "\n\n⚠️ Note: This site loads content dynamically. Some information may be missing."

/-- Source, scrapeWebsite tiers 2 and 3 (lines 557-584): after a
successful extraction with the given formatted content and confidence,
choose the response tag and cache write.  The percent label models
(confidence * 100).toFixed(0); every confidence the scorer produces is
an exact multiple of 10 percent, where rounding is exact. -/
def scrapeDecision (cache : CacheMap) (normalizedUrl cacheKey : String) (u : URLObj)
    (content : String) (confidence : ℚ) (now : Int) : String × CacheMap :=
  let domain := urlDomain u
  if 1/2 < confidence ∨ strategiesBasic.contains domain = true then
    let ttl := getCacheTTL normalizedUrl (some u)
    ("Scraped content from " ++ normalizedUrl ++ " (confidence: " ++
        toString (round (confidence * 100)) ++ "%):\n" ++ sepLine ++ "\n" ++ content,
      updateCache cache cacheKey content ttl now)
  else if strategiesDynamic.contains domain = true then
    let contentWithWarning := content ++ dynamicWarning
    let ttl := min (getCacheTTL normalizedUrl (some u)) 600
    ("Scraped content from " ++ normalizedUrl ++ " (dynamic site):\n" ++ sepLine ++
        "\n" ++ contentWithWarning,
      updateCache cache cacheKey contentWithWarning ttl now)
  else
    let ttl := getCacheTTL normalizedUrl (some u)
    ("Scraped content from " ++ normalizedUrl ++ ":\n" ++ sepLine ++ "\n" ++ content,
      updateCache cache cacheKey content ttl now)

/-- The freshly written entry is retrievable right after any put. -/
theorem mapGet_updateCache (m : CacheMap) (k c : String) (t n : Int) :
    mapGet (updateCache m k c t n) k =
      some { content := c, timestamp := n, ttl := t } := by
  rw [updateCache]
  exact mapGet_mapSet_self _ _ _

/-- Claim C7: with confidence at most one half, a domain on the dynamic
list and off the basic list, the response is the content with the
caveat appended, tagged as a dynamic site, cached under the minimum of
the TTL policy and 600 seconds, and that minimum never exceeds 600. -/
theorem dynamic_site_policy :
    ∀ (cache : CacheMap) (normalizedUrl cacheKey : String) (u : URLObj)
      (content : String) (confidence : ℚ) (now : Int),
      confidence ≤ 1/2 →
      strategiesDynamic.contains (urlDomain u) = true →
      strategiesBasic.contains (urlDomain u) = false →
      scrapeDecision cache normalizedUrl cacheKey u content confidence now =
        ("Scraped content from " ++ normalizedUrl ++ " (dynamic site):\n" ++ sepLine ++
            "\n" ++ (content ++ dynamicWarning),
          updateCache cache cacheKey (content ++ dynamicWarning)
            (min (getCacheTTL normalizedUrl (some u)) 600) now) ∧
      mapGet (scrapeDecision cache normalizedUrl cacheKey u content confidence now).2
          cacheKey =
        some { content := content ++ dynamicWarning, timestamp := now,
               ttl := min (getCacheTTL normalizedUrl (some u)) 600 } ∧
      min (getCacheTTL normalizedUrl (some u)) 600 ≤ 600 := by
  intro cache normalizedUrl cacheKey u content confidence now hconf hdyn hbasic
  have hnot : ¬ (1/2 < confidence ∨ strategiesBasic.contains (urlDomain u) = true) := by
    rintro (h | h)
    · exact absurd hconf (not_le.mpr h)
    · rw [hbasic] at h
      exact absurd h (by simp)
  have heq : scrapeDecision cache normalizedUrl cacheKey u content confidence now =
      ("Scraped content from " ++ normalizedUrl ++ " (dynamic site):\n" ++ sepLine ++
          "\n" ++ (content ++ dynamicWarning),
        updateCache cache cacheKey (content ++ dynamicWarning)
          (min (getCacheTTL normalizedUrl (some u)) 600) now) := by
    rw [scrapeDecision]
    simp only [if_neg hnot, if_pos hdyn]
  refine ⟨heq, ?_, min_le_right _ _⟩
  rw [heq]
  exact mapGet_updateCache _ _ _ _ _

/-- Witness for dynamic_site_policy at the concrete dynamic domain
x.com with confidence 0.3: the dynamic-site response and a cache entry
capped at 600 seconds. -/
theorem dynamic_site_policy_witness :
    ((3 : ℚ)/10 ≤ 1/2) ∧
    strategiesDynamic.contains
      (urlDomain { hostname := "www.x.com", pathname := "/", search := "", hash := "" }) =
        true ∧
    strategiesBasic.contains
      (urlDomain { hostname := "www.x.com", pathname := "/", search := "", hash := "" }) =
        false ∧
    mapGet (scrapeDecision [] "https://www.x.com/" "x.com/"
        { hostname := "www.x.com", pathname := "/", search := "", hash := "" }
        "page text" (3/10) 1000).2 "x.com/" =
      some { content := "page text" ++ dynamicWarning, timestamp := 1000,
             ttl := min (getCacheTTL "https://www.x.com/"
               (some { hostname := "www.x.com", pathname := "/", search := "", hash := "" }))
               600 } :=
  ⟨by norm_num, by decide, by decide,
    (dynamic_site_policy [] "https://www.x.com/" "x.com/"
        { hostname := "www.x.com", pathname := "/", search := "", hash := "" }
        "page text" (3/10) 1000 (by norm_num) (by decide) (by decide)).2.1⟩
